import Mathlib

/-!
Shallow embedding of the CHIP-8 interpreter from `src/main.rs` and
`src/display.rs`.

Conventions of the embedding:
* machine integers are `Nat` with explicit `% 2^w` where the Rust code wraps
  (`wrapping_add`, `<<=` on `u8`, `u16` wrap-around on `Fx1E`);
* the register file `v : Nat → Nat` models the Rust array `[u8; 16]`; every
  index used by `decode` is a masked nibble and hence `< 16`, and every value
  written is `< 256` whenever the registers held bytes before;
* fallible operations (`Vec` indexing out of bounds, `pop` on an empty stack)
  return `Option`, with `none` standing for the Rust panic;
* the blocking key-wait `Fx0A` re-enters `tick` recursively in the source;
  the embedding makes that recursion explicit with a fuel parameter, `none`
  standing for a recursion that has not terminated within the given fuel;
* `rand` is an oracle field holding the byte the external RNG would return
  for the `Cxnn` opcode;
* the repository carries two iterations of the `Display` type (one inlined in
  `main.rs`, one in `display.rs`).  They agree except that only the
  `display.rs` iteration has the `changed` dirty flag and its `render` method
  clears it; the embedding follows the `display.rs` iteration, writing the
  sprite-row shift in the total form `b * 2^(w-8) / 2^x` used by `main.rs`
  (the two shift expressions agree on every `x` the interpreter can pass).
-/

/-- Framebuffer state: dirty flag, resolution mode, one integer bit-row per
scanline (`u64` rows for 64x32, `u128` rows for 128x64). -/
structure Display where
  changed : Bool
  hi_mode : Bool
  lo_res : List Nat
  hi_res : List Nat

/-- The row pattern a sprite byte contributes: the byte is placed at the top
of the row integer and shifted right by the x coordinate
(`u64::from_be_bytes([b,0,..]) >> x` resp. the `u128` analogue). -/
def spritePattern (hi : Bool) (x b : Nat) : Nat :=
  if hi then b * 2 ^ 120 / 2 ^ x else b * 2 ^ 56 / 2 ^ x

/-- The sprite-drawing loop of `Display::draw`: for each sprite byte, stop if
`y + row` passes the row count `H`, otherwise record a collision if the
pattern overlaps the existing row and XOR the pattern in. -/
def drawAux (H : Nat) (p : Nat → Nat) (y : Nat) :
    Nat → List Nat → List Nat → Bool → List Nat × Bool
  | _, [], rows, res => (rows, res)
  | r, b :: rest, rows, res =>
    if H ≤ y + r then (rows, res)
    else
      drawAux H p y (r + 1) rest
        (rows.set (y + r) (Nat.xor (rows.getD (y + r) 0) (p b)))
        (res || decide (Nat.land (rows.getD (y + r) 0) (p b) ≠ 0))

/-- `Display::draw`: XOR the sprite into the active buffer, report collision,
mark dirty. -/
def Display.draw (d : Display) (x y : Nat) (sprite : List Nat) :
    Display × Bool :=
  if d.hi_mode then
    let z := drawAux 64 (spritePattern true x) y 0 sprite d.hi_res false
    ({ d with hi_res := z.1, changed := true }, z.2)
  else
    let z := drawAux 32 (spritePattern false x) y 0 sprite d.lo_res false
    ({ d with lo_res := z.1, changed := true }, z.2)

/-- `Display::clear`: zero every row of the active buffer, mark dirty. -/
def Display.clear (d : Display) : Display :=
  if d.hi_mode then
    { d with hi_res := d.hi_res.map (fun _ => 0), changed := true }
  else
    { d with lo_res := d.lo_res.map (fun _ => 0), changed := true }

/-- The copy loop of `Display::scroll_down`: `for row in (k..H).rev()`
the row at `row` is overwritten with the row at `row - k`. -/
def copyDown (k : Nat) : List Nat → List Nat → List Nat
  | [], a => a
  | r :: rest, a => copyDown k rest (a.set r (a.getD (r - k) 0))

/-- The zero loop of `Display::scroll_down`: rows `0..k` are set to zero. -/
def zeroRows : List Nat → List Nat → List Nat
  | [], a => a
  | r :: rest, a => zeroRows rest (a.set r 0)

/-- The descending index sequence `(k..H).rev()`. -/
def downIdx (k H : Nat) : List Nat :=
  ((List.range (H - k)).map (fun j => j + k)).reverse

/-- `Display::scroll_down` exactly as in the source: in high-resolution mode
rows of `hi_res` are shifted down within bounds `k..64`; in low-resolution
mode the source also reads and writes `hi_res` (not `lo_res`), with bounds
`k..32`.  The dirty flag is not touched by the source. -/
def Display.scroll_down (d : Display) (k : Nat) : Display :=
  if d.hi_mode then
    { d with hi_res := zeroRows (List.range k) (copyDown k (downIdx k 64) d.hi_res) }
  else
    { d with hi_res := zeroRows (List.range k) (copyDown k (downIdx k 32) d.hi_res) }

/-- `Display::scroll_right`: every active row shifted right by 4 bits.
The dirty flag is not touched by the source. -/
def Display.scroll_right (d : Display) : Display :=
  if d.hi_mode then { d with hi_res := d.hi_res.map (fun r => r / 16) }
  else { d with lo_res := d.lo_res.map (fun r => r / 16) }

/-- `Display::scroll_left`: every active row shifted left by 4 bits with
truncation at the row width.  The dirty flag is not touched by the source. -/
def Display.scroll_left (d : Display) : Display :=
  if d.hi_mode then { d with hi_res := d.hi_res.map (fun r => r * 16 % 2 ^ 128) }
  else { d with lo_res := d.lo_res.map (fun r => r * 16 % 2 ^ 64) }

/-- The effect of `Display::render` on the `Display` state: the method only
reads the pixel rows (handing them to the external canvas) and clears the
dirty flag as its final step. -/
def Display.render (d : Display) : Display := { d with changed := false }

/-- `Display::default`: standard resolution, both buffers zeroed, not dirty. -/
def Display.init : Display :=
  { changed := false, hi_mode := false
    lo_res := List.replicate 32 0, hi_res := List.replicate 64 0 }

/-- Interpreter state (`struct Chip8`), plus the RNG oracle byte `rand`. -/
structure Chip8 where
  display : Display
  input : Option Nat
  memory : List Nat
  pc : Nat
  i : Nat
  stack : List Nat
  v : Nat → Nat
  dt : Nat
  st : Nat
  rand : Nat

/-- `Nibbles::x`: bits 8-11 of the instruction (`(w >> 8) & 0xF`). -/
def nX (instr : Nat) : Nat := instr / 256 % 16

/-- `Nibbles::y`: bits 4-7 of the instruction (`(w >> 4) & 0xF`). -/
def nY (instr : Nat) : Nat := instr / 16 % 16

/-- Pointwise update of the register file at one index. -/
def updV (v : Nat → Nat) (j val : Nat) : Nat → Nat :=
  fun k => if k = j then val else v k

/-- Write one byte of memory; `none` models the `Vec` index panic. -/
def mwrite (m : List Nat) (a val : Nat) : Option (List Nat) :=
  if a < m.length then some (m.set a val) else none

/-- `Chip8::fetch`: big-endian instruction word at `pc`, `pc` advanced by 2;
`none` models the out-of-bounds index panic. -/
def Chip8.fetch (s : Chip8) : Option (Nat × Chip8) :=
  match s.memory[s.pc]?, s.memory[s.pc + 1]? with
  | some b0, some b1 => some (b0 * 256 + b1, { s with pc := s.pc + 2 })
  | _, _ => none

/-- Timer decrement at the end of `Chip8::tick` (floored at zero). -/
def decrTimers (s : Chip8) : Chip8 := { s with dt := s.dt - 1, st := s.st - 1 }

/-- The `Fx55` loop of the source: `for n in 0..x { memory[i + n] = v[n] }`
(note the exclusive upper bound in the source). -/
def storeRegs (v : Nat → Nat) (i : Nat) : List Nat → List Nat → Option (List Nat)
  | [], m => some m
  | n :: rest, m =>
    match mwrite m (i + n) (v n) with
    | none => none
    | some m' => storeRegs v i rest m'

/-- The `Fx65` loop of the source: `for n in 0..=x { v[n] = memory[i + n] }`. -/
def loadRegs (m : List Nat) (i : Nat) : List Nat → (Nat → Nat) → Option (Nat → Nat)
  | [], v => some v
  | n :: rest, v =>
    match m[i + n]? with
    | none => none
    | some b => loadRegs m i rest (updV v n b)

/-- The sprite-gathering loop of the `Dxyn` opcode:
`memory[i], memory[i+1], ...` for the given row offsets. -/
def readBytes (m : List Nat) (i : Nat) : List Nat → Option (List Nat)
  | [] => some []
  | r :: rest =>
    match m[i + r]?, readBytes m i rest with
    | some b, some bs => some (b :: bs)
    | _, _ => none

/-- The `0x0` opcode family of `Chip8::decode` (clear, return, SuperChip
stubs, scrolls; anything else is silently ignored). -/
def Chip8.decode0 (s : Chip8) (instr : Nat) : Option Chip8 :=
  if instr % 4096 = 0x0E0 then some { s with display := s.display.clear }
  else if instr % 4096 = 0x0EE then
    match s.stack with
    | [] => none
    | h :: t => some { s with pc := h, stack := t }
  else if instr % 4096 = 0x0FF then some s
  else if instr % 4096 = 0x0FE then some s
  else if 0x0C0 ≤ instr % 4096 ∧ instr % 4096 ≤ 0x0CF then
    some { s with display := s.display.scroll_down (instr % 16) }
  else if instr % 4096 = 0x0FB then some { s with display := s.display.scroll_right }
  else if instr % 4096 = 0x0FC then some { s with display := s.display.scroll_left }
  else some s

/-- The `0x8` opcode family of `Chip8::decode` (register-register ALU ops,
with the source's write orders preserved, including `VF` being written
first by the shifts). -/
def Chip8.decode8 (s : Chip8) (instr : Nat) : Option Chip8 :=
  if instr % 16 = 0 then some { s with v := updV s.v (nX instr) (s.v (nY instr)) }
  else if instr % 16 = 1 then
    some { s with v := updV s.v (nX instr) (Nat.lor (s.v (nX instr)) (s.v (nY instr))) }
  else if instr % 16 = 2 then
    some { s with v := updV s.v (nX instr) (Nat.land (s.v (nX instr)) (s.v (nY instr))) }
  else if instr % 16 = 3 then
    some { s with v := updV s.v (nX instr) (Nat.xor (s.v (nX instr)) (s.v (nY instr))) }
  else if instr % 16 = 4 then
    let sum := s.v (nX instr) + s.v (nY instr)
    some { s with v := updV (updV s.v (nX instr) (sum % 256)) 15
                      (if 256 ≤ sum then 1 else 0) }
  else if instr % 16 = 5 then
    some { s with v := updV (updV s.v (nX instr)
                        ((s.v (nX instr) + 256 - s.v (nY instr)) % 256)) 15
                      (if s.v (nY instr) ≤ s.v (nX instr) then 1 else 0) }
  else if instr % 16 = 6 then
    let v1 := updV s.v 15 (s.v (nX instr) % 2)
    some { s with v := updV v1 (nX instr) (v1 (nX instr) / 2) }
  else if instr % 16 = 7 then
    some { s with v := updV (updV s.v (nX instr)
                        ((s.v (nY instr) + 256 - s.v (nX instr)) % 256)) 15
                      (if s.v (nX instr) ≤ s.v (nY instr) then 1 else 0) }
  else if instr % 16 = 0xE then
    let v1 := updV s.v 15 (s.v (nX instr) / 128 % 2)
    some { s with v := updV v1 (nX instr) (v1 (nX instr) * 2 % 256) }
  else some s

/-- The `0xE` opcode family of `Chip8::decode` (skip on key state). -/
def Chip8.decodeE (s : Chip8) (instr : Nat) : Option Chip8 :=
  if instr % 256 = 0x9E then
    some (if s.input = some (s.v (nX instr)) then { s with pc := s.pc + 2 } else s)
  else if instr % 256 = 0xA1 then
    some (if s.input = some (s.v (nX instr)) then s else { s with pc := s.pc + 2 })
  else some s

/-- The `0xF` opcode family of `Chip8::decode`.  `recur` is the recursive
re-entry into `Chip8::tick` performed by the key-wait `Fx0A` when no key is
pressed (after rewinding `pc` by 2). -/
def Chip8.decodeF (recur : Chip8 → Option Chip8) (s : Chip8) (instr : Nat) :
    Option Chip8 :=
  if instr % 256 = 0x07 then some { s with v := updV s.v (nX instr) s.dt }
  else if instr % 256 = 0x0A then
    match s.input with
    | some k => some { s with v := updV s.v (nX instr) k }
    | none => recur { s with pc := s.pc - 2 }
  else if instr % 256 = 0x15 then some { s with dt := s.v (nX instr) }
  else if instr % 256 = 0x18 then some { s with st := s.v (nX instr) }
  else if instr % 256 = 0x1E then
    let res := (s.i + s.v (nX instr)) % 65536
    some { s with i := res, v := if 0xFFF < res ∨ res < s.i then updV s.v 15 1 else s.v }
  else if instr % 256 = 0x29 then some { s with i := 0x50 + 5 * nX instr }
  else if instr % 256 = 0x30 then some s
  else if instr % 256 = 0x33 then
    match mwrite s.memory s.i (s.v (nX instr) / 100) with
    | none => none
    | some m1 =>
      match mwrite m1 (s.i + 1) (s.v (nX instr) / 10 % 10) with
      | none => none
      | some m2 =>
        match mwrite m2 (s.i + 2) (s.v (nX instr) % 10) with
        | none => none
        | some m3 => some { s with memory := m3 }
  else if instr % 256 = 0x55 then
    match storeRegs s.v s.i (List.range (nX instr)) s.memory with
    | none => none
    | some m => some { s with memory := m }
  else if instr % 256 = 0x65 then
    match loadRegs s.memory s.i (List.range (nX instr + 1)) s.v with
    | none => none
    | some v' => some { s with v := v' }
  else if instr % 256 = 0x75 then some s
  else if instr % 256 = 0x85 then some s
  else some s

/-- `Chip8::decode`, dispatching on the top nibble of the instruction word.
`recur` is the recursive `tick` re-entry used by `Fx0A`. -/
def Chip8.decode (recur : Chip8 → Option Chip8) (s : Chip8) (instr : Nat) :
    Option Chip8 :=
  if instr / 4096 = 0 then s.decode0 instr
  else if instr / 4096 = 1 then some { s with pc := instr % 4096 }
  else if instr / 4096 = 2 then
    some { s with stack := s.pc :: s.stack, pc := instr % 4096 }
  else if instr / 4096 = 3 then
    some (if s.v (nX instr) = instr % 256 then { s with pc := s.pc + 2 } else s)
  else if instr / 4096 = 4 then
    some (if s.v (nX instr) = instr % 256 then s else { s with pc := s.pc + 2 })
  else if instr / 4096 = 5 then
    some (if s.v (nX instr) = s.v (nY instr) then { s with pc := s.pc + 2 } else s)
  else if instr / 4096 = 6 then some { s with v := updV s.v (nX instr) (instr % 256) }
  else if instr / 4096 = 7 then
    some { s with v := updV s.v (nX instr) ((s.v (nX instr) + instr % 256) % 256) }
  else if instr / 4096 = 8 then s.decode8 instr
  else if instr / 4096 = 9 then
    some (if s.v (nX instr) = s.v (nY instr) then s else { s with pc := s.pc + 2 })
  else if instr / 4096 = 10 then some { s with i := instr % 4096 }
  else if instr / 4096 = 11 then some { s with pc := instr % 4096 + s.v (nX instr) }
  else if instr / 4096 = 12 then
    some { s with v := updV s.v (nX instr) (Nat.land s.rand (instr % 256)) }
  else if instr / 4096 = 13 then
    let v1 := updV s.v 15 0
    match readBytes s.memory s.i (List.range (instr % 16)) with
    | none => none
    | some spr =>
      let z := s.display.draw (v1 (nX instr) % 64) (v1 (nY instr) % 32) spr
      some { s with display := z.1, v := if z.2 then updV v1 15 1 else v1 }
  else if instr / 4096 = 14 then s.decodeE instr
  else if instr / 4096 = 15 then Chip8.decodeF recur s instr
  else some s

/-- `Chip8::tick` with explicit fuel for the `Fx0A` retry recursion:
fetch, decode (re-entering `tick` with one unit of fuel less where the
source recurses), then decrement both timers.  `none` models either a panic
or a recursion that does not terminate within the fuel. -/
def Chip8.tick : Nat → Chip8 → Option Chip8
  | 0, _ => none
  | fuel + 1, s =>
    match s.fetch with
    | none => none
    | some p =>
      match Chip8.decode (Chip8.tick fuel) p.2 p.1 with
      | none => none
      | some s2 => some (decrTimers s2)

/-- The 80-byte font table `FONT`. -/
def FONT : List Nat :=
  [0xF0, 0x90, 0x90, 0x90, 0xF0,
   0x20, 0x60, 0x20, 0x20, 0x70,
   0xF0, 0x10, 0xF0, 0x80, 0xF0,
   0xF0, 0x10, 0xF0, 0x10, 0xF0,
   0x90, 0x90, 0xF0, 0x10, 0x10,
   0xF0, 0x80, 0xF0, 0x10, 0xF0,
   0xF0, 0x80, 0xF0, 0x90, 0xF0,
   0xF0, 0x10, 0x20, 0x40, 0x40,
   0xF0, 0x90, 0xF0, 0x90, 0xF0,
   0xF0, 0x90, 0xF0, 0x10, 0xF0,
   0xF0, 0x90, 0xF0, 0x90, 0x90,
   0xE0, 0x90, 0xE0, 0x90, 0xE0,
   0xF0, 0x80, 0x80, 0x80, 0xF0,
   0xE0, 0x90, 0x90, 0x90, 0xE0,
   0xF0, 0x80, 0xF0, 0x80, 0xF0,
   0xF0, 0x80, 0xF0, 0x80, 0x80]

/-- `Chip8::new`: 512-byte zero page with the font at `0x50..0xA0`, the ROM
bytes appended at `0x200`, the whole resized to 4096 bytes; `pc = 0x200`,
everything else from `Default`. -/
def Chip8.new (rom : List Nat) : Chip8 :=
  { display := Display.init
    input := none
    memory := ((List.replicate 0x50 0 ++ FONT ++ List.replicate 0x160 0)
                ++ rom ++ List.replicate 4096 0).take 4096
    pc := 0x200
    i := 0
    stack := []
    v := fun _ => 0
    dt := 0
    st := 0
    rand := 0 }

/-- The external driver loop restricted to what reaches the core: one `tick`,
then the input poll overwrites the key slot with the next event. -/
def runSteps (fuel : Nat) : List (Option Nat) → Chip8 → Option Chip8
  | [], s => some s
  | inp :: rest, s =>
    match Chip8.tick fuel s with
    | none => none
    | some s' => runSteps fuel rest { s' with input := inp }

/-- The instruction-word patterns `Chip8::decode` matches with an explicit
arm that does something (one disjunct per family, read off the `match`). -/
def recognized (instr : Nat) : Prop :=
  (instr / 4096 = 0 ∧
    (instr % 4096 = 0x0E0 ∨ instr % 4096 = 0x0EE ∨ instr % 4096 = 0x0FF ∨
     instr % 4096 = 0x0FE ∨ (0x0C0 ≤ instr % 4096 ∧ instr % 4096 ≤ 0x0CF) ∨
     instr % 4096 = 0x0FB ∨ instr % 4096 = 0x0FC)) ∨
  (1 ≤ instr / 4096 ∧ instr / 4096 ≤ 7) ∨
  (instr / 4096 = 8 ∧ (instr % 16 ≤ 7 ∨ instr % 16 = 0xE)) ∨
  (9 ≤ instr / 4096 ∧ instr / 4096 ≤ 13) ∨
  (instr / 4096 = 14 ∧ (instr % 256 = 0x9E ∨ instr % 256 = 0xA1)) ∨
  (instr / 4096 = 15 ∧
    (instr % 256 = 0x07 ∨ instr % 256 = 0x0A ∨ instr % 256 = 0x15 ∨
     instr % 256 = 0x18 ∨ instr % 256 = 0x1E ∨ instr % 256 = 0x29 ∨
     instr % 256 = 0x30 ∨ instr % 256 = 0x33 ∨ instr % 256 = 0x55 ∨
     instr % 256 = 0x65 ∨ instr % 256 = 0x75 ∨ instr % 256 = 0x85))

/-- "Some bit the sprite draws lands on a pixel that is currently set":
for some sprite row that is not clipped, the sprite's row pattern overlaps
the corresponding row of the active buffer. -/
def Display.hitsAt (d : Display) (x y : Nat) (spr : List Nat) : Prop :=
  ∃ k, k < spr.length ∧ y + k < (if d.hi_mode then 64 else 32) ∧
    Nat.land ((if d.hi_mode then d.hi_res else d.lo_res).getD (y + k) 0)
      (spritePattern d.hi_mode x (spr.getD k 0)) ≠ 0

/-- A concrete machine state used to evaluate register/index opcodes:
`V0 = 3`, `V1 = 7`, `I = 4`, 16 bytes of zeroed memory. -/
def stC1 : Chip8 :=
  { display := Display.init, input := none, memory := List.replicate 16 0,
    pc := 0, i := 4, stack := [],
    v := fun j => if j = 0 then 3 else if j = 1 then 7 else 0,
    dt := 0, st := 0, rand := 0 }

/-- A concrete state with `I = 0xFFE` and `V1 = 1`, so `Fx1E` lands exactly
on `0xFFF`. -/
def stC6 : Chip8 :=
  { stC1 with i := 0xFFE, v := fun j => if j = 1 then 1 else 0 }

/-- A concrete low-resolution framebuffer whose top active row and top
inactive row are nonzero. -/
def dC3 : Display :=
  { changed := false, hi_mode := false,
    lo_res := 1 :: List.replicate 31 0, hi_res := 5 :: List.replicate 63 0 }

/-- A concrete low-resolution framebuffer with every active row nonzero. -/
def dC9 : Display :=
  { changed := false, hi_mode := false,
    lo_res := List.replicate 32 1, hi_res := List.replicate 64 0 }

/-- A concrete state whose memory holds a call to address 4 followed there
by a return, with a sentinel value on the stack. -/
def stW7 : Chip8 :=
  { display := Display.init, input := none,
    memory := [0x20, 0x04, 0x00, 0x00, 0x00, 0xEE],
    pc := 0, i := 0, stack := [9], v := fun _ => 0, dt := 0, st := 0, rand := 0 }

/-- A concrete state whose current instruction word `0x8008` matches no
recognized opcode pattern. -/
def stW8 : Chip8 :=
  { display := Display.init, input := none, memory := [0x80, 0x08],
    pc := 0, i := 0, stack := [], v := fun _ => 0, dt := 3, st := 0, rand := 0 }

/-- A concrete state waiting on `F10A` with key 7 pressed. -/
def stW4 : Chip8 :=
  { display := Display.init, input := some 7, memory := [0xF1, 0x0A],
    pc := 0, i := 0, stack := [], v := fun _ => 0, dt := 5, st := 5, rand := 0 }

/-- A concrete low-resolution framebuffer whose inactive 128x64 buffer has a
nonzero top row, exhibiting which buffer `scroll_down` acts on. -/
def dC10 : Display :=
  { changed := false, hi_mode := false,
    lo_res := List.replicate 32 3, hi_res := 7 :: List.replicate 63 0 }

/-- C1: the claim says `Fx55` stores `V0..Vx` inclusive.  The source loop is
`for n in 0..x` (exclusive), so executing `F155` on `stC1` (`V0 = 3`,
`V1 = 7`, `I = 4`) writes `V0` to `memory[4]` but leaves `memory[5] = 0`,
where the claim requires `V1 = 7` there. -/
theorem fx55_stores_exclusive_range_at_stC1 :
    (Chip8.decode (fun _ => none) stC1 0xF155).map
      (fun s => (s.memory.getD 4 0, s.memory.getD 5 0)) = some (3, 0) := by
  rfl

/-- C2: the claim says `Fx29` sets `I` to `0x050 + 5 * Vx` (the register's
value).  The source uses the register index `x` instead: executing `F129`
on `stC1` yields `I = 0x55 = 0x50 + 5 * 1`, while the claim requires
`0x50 + 5 * V1 = 0x50 + 5 * 7 = 0x73`. -/
theorem fx29_uses_register_index_at_stC1 :
    (Chip8.decode (fun _ => none) stC1 0xF129).map Chip8.i = some 0x55 ∧
    0x50 + 5 * stC1.v 1 = 0x73 ∧ (0x55 : Nat) ≠ 0x73 := by
  refine ⟨by rfl, by rfl, by decide⟩

/-- C3: the claim says `scroll_down n` shifts the active buffer's rows and
leaves the inactive buffer unchanged.  In low-resolution mode the source
shifts the first 32 rows of `hi_res` instead: on `dC3` the active `lo_res`
is untouched (its row 0 keeps the value 1 instead of moving to row 1) and
the inactive `hi_res` changes from `5 :: 0...` to `0 :: 5 :: 0...`. -/
theorem scroll_down_lo_writes_hi_at_dC3 :
    dC3.lo_res = 1 :: List.replicate 31 0 ∧
    (dC3.scroll_down 1).lo_res = dC3.lo_res ∧
    (dC3.scroll_down 1).hi_res = 0 :: 5 :: List.replicate 62 0 := by
  refine ⟨by rfl, by rfl, by rfl⟩

/-- C6, counterexample: the claim says `Fx1E` sets `VF = 1` whenever the
resulting address is *equal to or greater than* `0xFFF`, in particular at
exactly `0xFFF`.  Executing `F11E` on `stC6` (`I = 0xFFE`, `V1 = 1`) makes
`I` exactly `0xFFF` and leaves `VF = 0`. -/
theorem fx1e_no_flag_at_fff :
    (Chip8.decode (fun _ => none) stC6 0xF11E).map (fun s => (s.i, s.v 15)) =
      some (0xFFF, 0) := by
  rfl

/-- C6, amended: `Fx1E` sets `I := (I + Vx) mod 2^16` and sets `VF := 1`
exactly when the result is *strictly greater* than `0xFFF` or the 16-bit
addition wrapped around (result below the old `I`); otherwise `VF` is left
unchanged. -/
theorem fx1e_adds_with_strict_overflow_flag (s : Chip8)
    (recur : Chip8 → Option Chip8) (instr : Nat)
    (ht : instr / 4096 = 15) (hnn : instr % 256 = 0x1E) :
    Chip8.decode recur s instr =
      some { s with
        i := (s.i + s.v (nX instr)) % 65536,
        v := if 0xFFF < (s.i + s.v (nX instr)) % 65536 ∨
                (s.i + s.v (nX instr)) % 65536 < s.i
             then updV s.v 15 1 else s.v } := by
  unfold Chip8.decode Chip8.decodeF
  simp [ht, hnn]

/-- C6, witness for the amended statement at `stC6` and instruction
`F11E`. -/
theorem fx1e_adds_with_strict_overflow_flag_at_stC6 :
    Chip8.decode (fun _ => none) stC6 0xF11E =
      some { stC6 with
        i := (stC6.i + stC6.v (nX 0xF11E)) % 65536,
        v := if 0xFFF < (stC6.i + stC6.v (nX 0xF11E)) % 65536 ∨
                (stC6.i + stC6.v (nX 0xF11E)) % 65536 < stC6.i
             then updV stC6.v 15 1 else stC6.v } :=
  fx1e_adds_with_strict_overflow_flag stC6 (fun _ => none) 0xF11E rfl rfl

/-- C9, counterexample: the claim says every mutating framebuffer operation
sets the dirty flag.  `scroll_left` on `dC9` changes every active row
(from 1 to 16) yet leaves the dirty flag clear. -/
theorem scroll_left_not_dirty_at_dC9 :
    (dC9.scroll_left).lo_res = List.replicate 32 16 ∧
    (dC9.scroll_left).changed = false := by
  refine ⟨by rfl, by rfl⟩

/-- C9, amended: `draw` and `clear` set the dirty flag; `scroll_down`,
`scroll_left` and `scroll_right` leave it untouched; `render` clears it and
never mutates pixel state or the resolution mode. -/
theorem dirty_flag_set_by_draw_clear_only (d : Display) (x y n : Nat)
    (spr : List Nat) :
    ((d.draw x y spr).1).changed = true ∧
    (d.clear).changed = true ∧
    (d.scroll_down n).changed = d.changed ∧
    (d.scroll_left).changed = d.changed ∧
    (d.scroll_right).changed = d.changed ∧
    (d.render).changed = false ∧
    (d.render).lo_res = d.lo_res ∧
    (d.render).hi_res = d.hi_res ∧
    (d.render).hi_mode = d.hi_mode := by
  unfold Display.draw Display.clear Display.scroll_down Display.scroll_left
    Display.scroll_right Display.render
  by_cases h : d.hi_mode <;> simp [h]

/-- Unfolding of `fetch` when both instruction bytes are in bounds. -/
theorem fetch_eq (s : Chip8) (b0 b1 : Nat)
    (h0 : s.memory[s.pc]? = some b0) (h1 : s.memory[s.pc + 1]? = some b1) :
    s.fetch = some (b0 * 256 + b1, { s with pc := s.pc + 2 }) := by
  unfold Chip8.fetch
  rw [h0, h1]

/-- Unfolding of one `tick` once the fetched word and its decode result are
known. -/
theorem tick_succ_eq (fuel : Nat) (s s2 : Chip8) (b0 b1 : Nat)
    (h0 : s.memory[s.pc]? = some b0) (h1 : s.memory[s.pc + 1]? = some b1)
    (hdec : Chip8.decode (Chip8.tick fuel) { s with pc := s.pc + 2 }
        (b0 * 256 + b1) = some s2) :
    Chip8.tick (fuel + 1) s = some (decrTimers s2) := by
  unfold Chip8.tick
  rw [fetch_eq s b0 b1 h0 h1]
  simp only [hdec]

/-- The `0x0` family ignores every word outside its explicit patterns. -/
theorem decode0_unknown (s : Chip8) (instr : Nat)
    (h : ¬(instr % 4096 = 0x0E0 ∨ instr % 4096 = 0x0EE ∨
        instr % 4096 = 0x0FF ∨ instr % 4096 = 0x0FE ∨
        (0x0C0 ≤ instr % 4096 ∧ instr % 4096 ≤ 0x0CF) ∨
        instr % 4096 = 0x0FB ∨ instr % 4096 = 0x0FC)) :
    s.decode0 instr = some s := by
  have g1 : instr % 4096 ≠ 0x0E0 := fun e => h (by omega)
  have g2 : instr % 4096 ≠ 0x0EE := fun e => h (by omega)
  have g3 : instr % 4096 ≠ 0x0FF := fun e => h (by omega)
  have g4 : instr % 4096 ≠ 0x0FE := fun e => h (by omega)
  have g5 : ¬(0x0C0 ≤ instr % 4096 ∧ instr % 4096 ≤ 0x0CF) :=
    fun e => h (by omega)
  have g6 : instr % 4096 ≠ 0x0FB := fun e => h (by omega)
  have g7 : instr % 4096 ≠ 0x0FC := fun e => h (by omega)
  unfold Chip8.decode0
  rw [if_neg g1, if_neg g2, if_neg g3, if_neg g4, if_neg g5, if_neg g6,
    if_neg g7]

/-- The `0x8` family logs and ignores every word whose low nibble is not an
ALU selector. -/
theorem decode8_unknown (s : Chip8) (instr : Nat)
    (h : ¬(instr % 16 ≤ 7 ∨ instr % 16 = 0xE)) :
    s.decode8 instr = some s := by
  have g1 : instr % 16 ≠ 0 := fun e => h (by omega)
  have g2 : instr % 16 ≠ 1 := fun e => h (by omega)
  have g3 : instr % 16 ≠ 2 := fun e => h (by omega)
  have g4 : instr % 16 ≠ 3 := fun e => h (by omega)
  have g5 : instr % 16 ≠ 4 := fun e => h (by omega)
  have g6 : instr % 16 ≠ 5 := fun e => h (by omega)
  have g7 : instr % 16 ≠ 6 := fun e => h (by omega)
  have g8 : instr % 16 ≠ 7 := fun e => h (by omega)
  have g9 : instr % 16 ≠ 0xE := fun e => h (by omega)
  unfold Chip8.decode8
  rw [if_neg g1, if_neg g2, if_neg g3, if_neg g4, if_neg g5, if_neg g6,
    if_neg g7, if_neg g8, if_neg g9]

/-- The `0xE` family logs and ignores every word whose low byte is neither
`9E` nor `A1`. -/
theorem decodeE_unknown (s : Chip8) (instr : Nat)
    (h : ¬(instr % 256 = 0x9E ∨ instr % 256 = 0xA1)) :
    s.decodeE instr = some s := by
  have g1 : instr % 256 ≠ 0x9E := fun e => h (by omega)
  have g2 : instr % 256 ≠ 0xA1 := fun e => h (by omega)
  unfold Chip8.decodeE
  rw [if_neg g1, if_neg g2]

/-- The `0xF` family logs and ignores every word whose low byte is not a
recognized selector. -/
theorem decodeF_unknown (recur : Chip8 → Option Chip8) (s : Chip8) (instr : Nat)
    (h : ¬(instr % 256 = 0x07 ∨ instr % 256 = 0x0A ∨ instr % 256 = 0x15 ∨
        instr % 256 = 0x18 ∨ instr % 256 = 0x1E ∨ instr % 256 = 0x29 ∨
        instr % 256 = 0x30 ∨ instr % 256 = 0x33 ∨ instr % 256 = 0x55 ∨
        instr % 256 = 0x65 ∨ instr % 256 = 0x75 ∨ instr % 256 = 0x85)) :
    Chip8.decodeF recur s instr = some s := by
  have g1 : instr % 256 ≠ 0x07 := fun e => h (by omega)
  have g2 : instr % 256 ≠ 0x0A := fun e => h (by omega)
  have g3 : instr % 256 ≠ 0x15 := fun e => h (by omega)
  have g4 : instr % 256 ≠ 0x18 := fun e => h (by omega)
  have g5 : instr % 256 ≠ 0x1E := fun e => h (by omega)
  have g6 : instr % 256 ≠ 0x29 := fun e => h (by omega)
  have g7 : instr % 256 ≠ 0x30 := fun e => h (by omega)
  have g8 : instr % 256 ≠ 0x33 := fun e => h (by omega)
  have g9 : instr % 256 ≠ 0x55 := fun e => h (by omega)
  have g10 : instr % 256 ≠ 0x65 := fun e => h (by omega)
  have g11 : instr % 256 ≠ 0x75 := fun e => h (by omega)
  have g12 : instr % 256 ≠ 0x85 := fun e => h (by omega)
  unfold Chip8.decodeF
  rw [if_neg g1, if_neg g2, if_neg g3, if_neg g4, if_neg g5, if_neg g6,
    if_neg g7, if_neg g8, if_neg g9, if_neg g10, if_neg g11, if_neg g12]

/-- An instruction word matching no recognized pattern leaves the whole
machine state unchanged under `decode`. -/
theorem decode_unknown (recur : Chip8 → Option Chip8) (s : Chip8) (instr : Nat)
    (h : ¬ recognized instr) :
    Chip8.decode recur s instr = some s := by
  by_cases h0 : instr / 4096 = 0
  · unfold Chip8.decode
    rw [if_pos h0]
    refine decode0_unknown s instr (fun hor => h ?_)
    simp only [recognized]
    exact Or.inl ⟨h0, hor⟩
  · have h17 : ¬(1 ≤ instr / 4096 ∧ instr / 4096 ≤ 7) :=
      fun e => h (by simp only [recognized]; exact Or.inr (Or.inl e))
    have h913 : ¬(9 ≤ instr / 4096 ∧ instr / 4096 ≤ 13) :=
      fun e => h (by
        simp only [recognized]
        exact Or.inr (Or.inr (Or.inr (Or.inl e))))
    have g1 : instr / 4096 ≠ 1 := by omega
    have g2 : instr / 4096 ≠ 2 := by omega
    have g3 : instr / 4096 ≠ 3 := by omega
    have g4 : instr / 4096 ≠ 4 := by omega
    have g5 : instr / 4096 ≠ 5 := by omega
    have g6 : instr / 4096 ≠ 6 := by omega
    have g7 : instr / 4096 ≠ 7 := by omega
    have g9 : instr / 4096 ≠ 9 := by omega
    have g10 : instr / 4096 ≠ 10 := by omega
    have g11 : instr / 4096 ≠ 11 := by omega
    have g12 : instr / 4096 ≠ 12 := by omega
    have g13 : instr / 4096 ≠ 13 := by omega
    by_cases h8 : instr / 4096 = 8
    · unfold Chip8.decode
      rw [if_neg h0, if_neg g1, if_neg g2, if_neg g3, if_neg g4, if_neg g5,
        if_neg g6, if_neg g7, if_pos h8]
      refine decode8_unknown s instr (fun hor => h ?_)
      simp only [recognized]
      exact Or.inr (Or.inr (Or.inl ⟨h8, hor⟩))
    · by_cases h14 : instr / 4096 = 14
      · unfold Chip8.decode
        rw [if_neg h0, if_neg g1, if_neg g2, if_neg g3, if_neg g4, if_neg g5,
          if_neg g6, if_neg g7, if_neg h8, if_neg g9, if_neg g10, if_neg g11,
          if_neg g12, if_neg g13, if_pos h14]
        refine decodeE_unknown s instr (fun hor => h ?_)
        simp only [recognized]
        exact Or.inr (Or.inr (Or.inr (Or.inr (Or.inl ⟨h14, hor⟩))))
      · by_cases h15 : instr / 4096 = 15
        · unfold Chip8.decode
          rw [if_neg h0, if_neg g1, if_neg g2, if_neg g3, if_neg g4,
            if_neg g5, if_neg g6, if_neg g7, if_neg h8, if_neg g9,
            if_neg g10, if_neg g11, if_neg g12, if_neg g13, if_neg h14,
            if_pos h15]
          refine decodeF_unknown recur s instr (fun hor => h ?_)
          simp only [recognized]
          exact Or.inr (Or.inr (Or.inr (Or.inr (Or.inr ⟨h15, hor⟩))))
        · unfold Chip8.decode
          rw [if_neg h0, if_neg g1, if_neg g2, if_neg g3, if_neg g4,
            if_neg g5, if_neg g6, if_neg g7, if_neg h8, if_neg g9,
            if_neg g10, if_neg g11, if_neg g12, if_neg g13, if_neg h14,
            if_neg h15]

/-- C8: an instruction word matching no recognized opcode pattern is
non-fatal: the tick completes, leaving memory, all registers, `I`, the
stack, the framebuffer and the key slot unchanged, with `pc` advanced by 2
by the fetch. -/
theorem unknown_opcode_is_noop (s : Chip8) (b0 b1 : Nat)
    (h0 : s.memory[s.pc]? = some b0) (h1 : s.memory[s.pc + 1]? = some b1)
    (h : ¬ recognized (b0 * 256 + b1)) :
    ∃ s', Chip8.tick 1 s = some s' ∧ s'.memory = s.memory ∧ s'.v = s.v ∧
      s'.i = s.i ∧ s'.stack = s.stack ∧ s'.display = s.display ∧
      s'.input = s.input ∧ s'.pc = s.pc + 2 := by
  refine ⟨decrTimers { s with pc := s.pc + 2 }, ?_, rfl, rfl, rfl, rfl, rfl,
    rfl, rfl⟩
  exact tick_succ_eq 0 s _ b0 b1 h0 h1
    (decode_unknown (Chip8.tick 0) { s with pc := s.pc + 2 } _ h)

/-- C8, witness: the word `0x8008` (`0x8` family, selector 8) at `stW8`. -/
theorem unknown_opcode_is_noop_at_stW8 :
    ∃ s', Chip8.tick 1 stW8 = some s' ∧ s'.memory = stW8.memory ∧
      s'.v = stW8.v ∧ s'.i = stW8.i ∧ s'.stack = stW8.stack ∧
      s'.display = stW8.display ∧ s'.input = stW8.input ∧
      s'.pc = stW8.pc + 2 :=
  unknown_opcode_is_noop stW8 0x80 0x08 rfl rfl (by unfold recognized; decide)

/-- C7: executing a call (`2nnn`) and then immediately the return (`00EE`)
at the call target leaves `pc` two past the call instruction's address and
restores the stack to its pre-call contents. -/
theorem call_then_return_restores (s : Chip8) (b0 b1 : Nat)
    (h0 : s.memory[s.pc]? = some b0) (h1 : s.memory[s.pc + 1]? = some b1)
    (hlo : 0x20 ≤ b0) (hhi : b0 < 0x30) (hb1 : b1 < 256)
    (hr0 : s.memory[b0 % 16 * 256 + b1]? = some 0x00)
    (hr1 : s.memory[b0 % 16 * 256 + b1 + 1]? = some 0xEE) :
    ∃ s1 s2, Chip8.tick 1 s = some s1 ∧ Chip8.tick 1 s1 = some s2 ∧
      s2.pc = s.pc + 2 ∧ s2.stack = s.stack := by
  have ht : (b0 * 256 + b1) / 4096 = 2 := by omega
  have hm : (b0 * 256 + b1) % 4096 = b0 % 16 * 256 + b1 := by omega
  have hd1 : Chip8.decode (Chip8.tick 0) { s with pc := s.pc + 2 }
      (b0 * 256 + b1) =
      some { s with stack := (s.pc + 2) :: s.stack,
                    pc := b0 % 16 * 256 + b1 } := by
    unfold Chip8.decode
    rw [ht, hm]
    rfl
  have tick1 : Chip8.tick 1 s =
      some (decrTimers { s with stack := (s.pc + 2) :: s.stack,
                                pc := b0 % 16 * 256 + b1 }) :=
    tick_succ_eq 0 s _ b0 b1 h0 h1 hd1
  exact ⟨_, _, tick1, tick_succ_eq 0 _ _ 0x00 0xEE hr0 hr1 rfl, rfl, rfl⟩

/-- C7, witness: `stW7` calls address 4 and returns, landing on `pc = 2`
with the sentinel stack `[9]` intact. -/
theorem call_then_return_restores_at_stW7 :
    ∃ s1 s2, Chip8.tick 1 stW7 = some s1 ∧ Chip8.tick 1 s1 = some s2 ∧
      s2.pc = stW7.pc + 2 ∧ s2.stack = stW7.stack :=
  call_then_return_restores stW7 0x20 0x04 rfl rfl (by decide) (by decide)
    (by decide) rfl rfl

/-- C4: with the current instruction `Fx0A`, while the key slot holds no
key, no amount of fuel lets `tick` terminate (the source's retry recursion
re-fetches the same instruction forever, so `pc` never moves past the
waiting instruction); as soon as a key `k` is present, the tick returns with
`Vx = k` and `pc` exactly 2 past the waiting instruction's address — the
amount of fuel (number of permitted retries) does not change the result. -/
theorem key_wait_blocks_then_advances (s : Chip8) (b0 : Nat)
    (h0 : s.memory[s.pc]? = some b0) (h1 : s.memory[s.pc + 1]? = some 0x0A)
    (hlo : 0xF0 ≤ b0) (hhi : b0 < 0x100) :
    (s.input = none → ∀ fuel, Chip8.tick fuel s = none) ∧
    (∀ k, s.input = some k → ∀ fuel, ∃ s',
      Chip8.tick (fuel + 1) s = some s' ∧
      s'.v (nX (b0 * 256 + 0x0A)) = k ∧ s'.pc = s.pc + 2) := by
  have ht : (b0 * 256 + 0x0A) / 4096 = 15 := by omega
  obtain ⟨dsp, inp, mem, pc, ii, stk, vv, dtt, stt, rnd⟩ := s
  simp only at h0 h1 ⊢
  constructor
  · intro hnone fuel
    subst hnone
    induction fuel with
    | zero => rfl
    | succ f ih =>
      have hnn : (b0 * 256 + 0x0A) % 256 = 0x0A := by omega
      have hdec : Chip8.decode (Chip8.tick f)
          ⟨dsp, none, mem, pc + 2, ii, stk, vv, dtt, stt, rnd⟩
          (b0 * 256 + 0x0A) =
          Chip8.tick f ⟨dsp, none, mem, pc, ii, stk, vv, dtt, stt, rnd⟩ := by
        unfold Chip8.decode Chip8.decodeF
        rw [ht, hnn]
        rfl
      unfold Chip8.tick
      rw [fetch_eq _ b0 0x0A h0 h1]
      simp only [hdec, ih]
  · intro k hk fuel
    subst hk
    have hnn : (b0 * 256 + 0x0A) % 256 = 0x0A := by omega
    have hdec : Chip8.decode (Chip8.tick fuel)
        ⟨dsp, some k, mem, pc + 2, ii, stk, vv, dtt, stt, rnd⟩
        (b0 * 256 + 0x0A) =
        some ⟨dsp, some k, mem, pc + 2, ii, stk,
          updV vv (nX (b0 * 256 + 0x0A)) k, dtt, stt, rnd⟩ := by
      unfold Chip8.decode Chip8.decodeF
      rw [ht, hnn]
      rfl
    refine ⟨_, tick_succ_eq fuel _ _ b0 0x0A h0 h1 hdec, ?_, rfl⟩
    simp [decrTimers, updV]

/-- C4, witness: at `stW4` the key 7 is pressed, so one tick completes with
`V1 = 7` and `pc = 2`. -/
theorem key_wait_blocks_then_advances_at_stW4 :
    (stW4.input = none → ∀ fuel, Chip8.tick fuel stW4 = none) ∧
    (∀ k, stW4.input = some k → ∀ fuel, ∃ s',
      Chip8.tick (fuel + 1) stW4 = some s' ∧
      s'.v (nX (0xF1 * 256 + 0x0A)) = k ∧ s'.pc = stW4.pc + 2) :=
  key_wait_blocks_then_advances stW4 0xF1 rfl rfl (by decide) (by decide)

/-- `clear` never changes the resolution mode. -/
theorem clear_hi_mode (d : Display) : (Display.clear d).hi_mode = d.hi_mode := by
  unfold Display.clear
  by_cases h : d.hi_mode <;> simp [h]

/-- `scroll_down` never changes the resolution mode. -/
theorem scroll_down_hi_mode (d : Display) (k : Nat) :
    (Display.scroll_down d k).hi_mode = d.hi_mode := by
  unfold Display.scroll_down
  by_cases h : d.hi_mode <;> simp [h]

/-- `scroll_right` never changes the resolution mode. -/
theorem scroll_right_hi_mode (d : Display) :
    (Display.scroll_right d).hi_mode = d.hi_mode := by
  unfold Display.scroll_right
  by_cases h : d.hi_mode <;> simp [h]

/-- `scroll_left` never changes the resolution mode. -/
theorem scroll_left_hi_mode (d : Display) :
    (Display.scroll_left d).hi_mode = d.hi_mode := by
  unfold Display.scroll_left
  by_cases h : d.hi_mode <;> simp [h]

/-- `draw` never changes the resolution mode. -/
theorem draw_hi_mode (d : Display) (x y : Nat) (spr : List Nat) :
    ((Display.draw d x y spr).1).hi_mode = d.hi_mode := by
  unfold Display.draw
  by_cases h : d.hi_mode <;> simp [h]

/-- The `0x0` family never changes the resolution mode. -/
theorem decode0_hi (s s' : Chip8) (instr : Nat) (h : s.decode0 instr = some s') :
    s'.display.hi_mode = s.display.hi_mode := by
  unfold Chip8.decode0 at h
  split_ifs at h
  · simp only [Option.some.injEq] at h; subst h; exact clear_hi_mode s.display
  · cases hs : s.stack with
    | nil => rw [hs] at h; exact Option.noConfusion h
    | cons a t =>
      rw [hs] at h; simp only [Option.some.injEq] at h; subst h; rfl
  · simp only [Option.some.injEq] at h; subst h; rfl
  · simp only [Option.some.injEq] at h; subst h; rfl
  · simp only [Option.some.injEq] at h; subst h
    exact scroll_down_hi_mode s.display _
  · simp only [Option.some.injEq] at h; subst h
    exact scroll_right_hi_mode s.display
  · simp only [Option.some.injEq] at h; subst h
    exact scroll_left_hi_mode s.display
  · simp only [Option.some.injEq] at h; subst h; rfl

set_option maxHeartbeats 1000000 in
/-- The `0x8` family never touches the framebuffer at all. -/
theorem decode8_display (s s' : Chip8) (instr : Nat)
    (h : s.decode8 instr = some s') : s'.display = s.display := by
  unfold Chip8.decode8 at h
  split_ifs at h <;> (simp only [Option.some.injEq] at h; subst h; rfl)

set_option maxHeartbeats 1000000 in
/-- The `0xE` family never touches the framebuffer at all. -/
theorem decodeE_display (s s' : Chip8) (instr : Nat)
    (h : s.decodeE instr = some s') : s'.display = s.display := by
  unfold Chip8.decodeE at h
  split_ifs at h <;> (simp only [Option.some.injEq] at h; subst h; rfl)

/-- The `0xF` family never changes the resolution mode, provided the
key-wait re-entry does not. -/
theorem decodeF_hi (recur : Chip8 → Option Chip8)
    (hr : ∀ a b, recur a = some b → b.display.hi_mode = a.display.hi_mode)
    (s s' : Chip8) (instr : Nat) (h : Chip8.decodeF recur s instr = some s') :
    s'.display.hi_mode = s.display.hi_mode := by
  have hv : instr % 256 = 0x07 ∨ instr % 256 = 0x0A ∨ instr % 256 = 0x15 ∨
      instr % 256 = 0x18 ∨ instr % 256 = 0x1E ∨ instr % 256 = 0x29 ∨
      instr % 256 = 0x30 ∨ instr % 256 = 0x33 ∨ instr % 256 = 0x55 ∨
      instr % 256 = 0x65 ∨ instr % 256 = 0x75 ∨ instr % 256 = 0x85 ∨
      ¬(instr % 256 = 0x07 ∨ instr % 256 = 0x0A ∨ instr % 256 = 0x15 ∨
        instr % 256 = 0x18 ∨ instr % 256 = 0x1E ∨ instr % 256 = 0x29 ∨
        instr % 256 = 0x30 ∨ instr % 256 = 0x33 ∨ instr % 256 = 0x55 ∨
        instr % 256 = 0x65 ∨ instr % 256 = 0x75 ∨ instr % 256 = 0x85) := by
    omega
  rcases hv with hc|hc|hc|hc|hc|hc|hc|hc|hc|hc|hc|hc|hc
  · unfold Chip8.decodeF at h
    rw [if_pos hc] at h
    simp only [Option.some.injEq] at h; subst h; rfl
  · unfold Chip8.decodeF at h
    have k07 : instr % 256 ≠ 0x07 := by omega
    rw [if_neg k07, if_pos hc] at h
    split at h
    · simp only [Option.some.injEq] at h; subst h; rfl
    · exact hr { s with pc := s.pc - 2 } s' h
  · unfold Chip8.decodeF at h
    have k07 : instr % 256 ≠ 0x07 := by omega
    have k0A : instr % 256 ≠ 0x0A := by omega
    rw [if_neg k07, if_neg k0A, if_pos hc] at h
    simp only [Option.some.injEq] at h; subst h; rfl
  · unfold Chip8.decodeF at h
    have k07 : instr % 256 ≠ 0x07 := by omega
    have k0A : instr % 256 ≠ 0x0A := by omega
    have k15 : instr % 256 ≠ 0x15 := by omega
    rw [if_neg k07, if_neg k0A, if_neg k15, if_pos hc] at h
    simp only [Option.some.injEq] at h; subst h; rfl
  · unfold Chip8.decodeF at h
    have k07 : instr % 256 ≠ 0x07 := by omega
    have k0A : instr % 256 ≠ 0x0A := by omega
    have k15 : instr % 256 ≠ 0x15 := by omega
    have k18 : instr % 256 ≠ 0x18 := by omega
    rw [if_neg k07, if_neg k0A, if_neg k15, if_neg k18, if_pos hc] at h
    simp only [Option.some.injEq] at h; subst h; rfl
  · unfold Chip8.decodeF at h
    have k07 : instr % 256 ≠ 0x07 := by omega
    have k0A : instr % 256 ≠ 0x0A := by omega
    have k15 : instr % 256 ≠ 0x15 := by omega
    have k18 : instr % 256 ≠ 0x18 := by omega
    have k1E : instr % 256 ≠ 0x1E := by omega
    rw [if_neg k07, if_neg k0A, if_neg k15, if_neg k18, if_neg k1E, if_pos hc] at h
    simp only [Option.some.injEq] at h; subst h; rfl
  · unfold Chip8.decodeF at h
    have k07 : instr % 256 ≠ 0x07 := by omega
    have k0A : instr % 256 ≠ 0x0A := by omega
    have k15 : instr % 256 ≠ 0x15 := by omega
    have k18 : instr % 256 ≠ 0x18 := by omega
    have k1E : instr % 256 ≠ 0x1E := by omega
    have k29 : instr % 256 ≠ 0x29 := by omega
    rw [if_neg k07, if_neg k0A, if_neg k15, if_neg k18, if_neg k1E, if_neg k29, if_pos hc] at h
    simp only [Option.some.injEq] at h; subst h; rfl
  · unfold Chip8.decodeF at h
    have k07 : instr % 256 ≠ 0x07 := by omega
    have k0A : instr % 256 ≠ 0x0A := by omega
    have k15 : instr % 256 ≠ 0x15 := by omega
    have k18 : instr % 256 ≠ 0x18 := by omega
    have k1E : instr % 256 ≠ 0x1E := by omega
    have k29 : instr % 256 ≠ 0x29 := by omega
    have k30 : instr % 256 ≠ 0x30 := by omega
    rw [if_neg k07, if_neg k0A, if_neg k15, if_neg k18, if_neg k1E, if_neg k29, if_neg k30, if_pos hc] at h
    split at h
    · exact Option.noConfusion h
    · split at h
      · exact Option.noConfusion h
      · split at h
        · exact Option.noConfusion h
        · simp only [Option.some.injEq] at h; subst h; rfl
  · unfold Chip8.decodeF at h
    have k07 : instr % 256 ≠ 0x07 := by omega
    have k0A : instr % 256 ≠ 0x0A := by omega
    have k15 : instr % 256 ≠ 0x15 := by omega
    have k18 : instr % 256 ≠ 0x18 := by omega
    have k1E : instr % 256 ≠ 0x1E := by omega
    have k29 : instr % 256 ≠ 0x29 := by omega
    have k30 : instr % 256 ≠ 0x30 := by omega
    have k33 : instr % 256 ≠ 0x33 := by omega
    rw [if_neg k07, if_neg k0A, if_neg k15, if_neg k18, if_neg k1E, if_neg k29, if_neg k30, if_neg k33, if_pos hc] at h
    split at h
    · exact Option.noConfusion h
    · simp only [Option.some.injEq] at h; subst h; rfl
  · unfold Chip8.decodeF at h
    have k07 : instr % 256 ≠ 0x07 := by omega
    have k0A : instr % 256 ≠ 0x0A := by omega
    have k15 : instr % 256 ≠ 0x15 := by omega
    have k18 : instr % 256 ≠ 0x18 := by omega
    have k1E : instr % 256 ≠ 0x1E := by omega
    have k29 : instr % 256 ≠ 0x29 := by omega
    have k30 : instr % 256 ≠ 0x30 := by omega
    have k33 : instr % 256 ≠ 0x33 := by omega
    have k55 : instr % 256 ≠ 0x55 := by omega
    rw [if_neg k07, if_neg k0A, if_neg k15, if_neg k18, if_neg k1E, if_neg k29, if_neg k30, if_neg k33, if_neg k55, if_pos hc] at h
    split at h
    · exact Option.noConfusion h
    · simp only [Option.some.injEq] at h; subst h; rfl
  · unfold Chip8.decodeF at h
    have k07 : instr % 256 ≠ 0x07 := by omega
    have k0A : instr % 256 ≠ 0x0A := by omega
    have k15 : instr % 256 ≠ 0x15 := by omega
    have k18 : instr % 256 ≠ 0x18 := by omega
    have k1E : instr % 256 ≠ 0x1E := by omega
    have k29 : instr % 256 ≠ 0x29 := by omega
    have k30 : instr % 256 ≠ 0x30 := by omega
    have k33 : instr % 256 ≠ 0x33 := by omega
    have k55 : instr % 256 ≠ 0x55 := by omega
    have k65 : instr % 256 ≠ 0x65 := by omega
    rw [if_neg k07, if_neg k0A, if_neg k15, if_neg k18, if_neg k1E, if_neg k29, if_neg k30, if_neg k33, if_neg k55, if_neg k65, if_pos hc] at h
    simp only [Option.some.injEq] at h; subst h; rfl
  · unfold Chip8.decodeF at h
    have k07 : instr % 256 ≠ 0x07 := by omega
    have k0A : instr % 256 ≠ 0x0A := by omega
    have k15 : instr % 256 ≠ 0x15 := by omega
    have k18 : instr % 256 ≠ 0x18 := by omega
    have k1E : instr % 256 ≠ 0x1E := by omega
    have k29 : instr % 256 ≠ 0x29 := by omega
    have k30 : instr % 256 ≠ 0x30 := by omega
    have k33 : instr % 256 ≠ 0x33 := by omega
    have k55 : instr % 256 ≠ 0x55 := by omega
    have k65 : instr % 256 ≠ 0x65 := by omega
    have k75 : instr % 256 ≠ 0x75 := by omega
    rw [if_neg k07, if_neg k0A, if_neg k15, if_neg k18, if_neg k1E, if_neg k29, if_neg k30, if_neg k33, if_neg k55, if_neg k65, if_neg k75, if_pos hc] at h
    simp only [Option.some.injEq] at h; subst h; rfl
  · rw [decodeF_unknown recur s instr hc] at h
    simp only [Option.some.injEq] at h; subst h; rfl

/-- `decode` never changes the resolution mode, provided the key-wait
re-entry does not (no opcode, including `00FF`/`00FE`, sets it). -/
theorem decode_hi (recur : Chip8 → Option Chip8)
    (hr : ∀ a b, recur a = some b → b.display.hi_mode = a.display.hi_mode)
    (s s' : Chip8) (instr : Nat) (h : Chip8.decode recur s instr = some s') :
    s'.display.hi_mode = s.display.hi_mode := by
  have hv : instr / 4096 = 0 ∨ instr / 4096 = 1 ∨ instr / 4096 = 2 ∨
      instr / 4096 = 3 ∨ instr / 4096 = 4 ∨ instr / 4096 = 5 ∨
      instr / 4096 = 6 ∨ instr / 4096 = 7 ∨ instr / 4096 = 8 ∨
      instr / 4096 = 9 ∨ instr / 4096 = 10 ∨ instr / 4096 = 11 ∨
      instr / 4096 = 12 ∨ instr / 4096 = 13 ∨ instr / 4096 = 14 ∨
      instr / 4096 = 15 ∨ 16 ≤ instr / 4096 := by omega
  rcases hv with hc|hc|hc|hc|hc|hc|hc|hc|hc|hc|hc|hc|hc|hc|hc|hc|hc
  · unfold Chip8.decode at h
    rw [if_pos hc] at h
    exact decode0_hi s s' instr h
  · unfold Chip8.decode at h
    have u0 : instr / 4096 ≠ 0 := by omega
    rw [if_neg u0, if_pos hc] at h
    simp only [Option.some.injEq] at h; subst h; rfl
  · unfold Chip8.decode at h
    have u0 : instr / 4096 ≠ 0 := by omega
    have u1 : instr / 4096 ≠ 1 := by omega
    rw [if_neg u0, if_neg u1, if_pos hc] at h
    simp only [Option.some.injEq] at h; subst h; rfl
  · unfold Chip8.decode at h
    have u0 : instr / 4096 ≠ 0 := by omega
    have u1 : instr / 4096 ≠ 1 := by omega
    have u2 : instr / 4096 ≠ 2 := by omega
    rw [if_neg u0, if_neg u1, if_neg u2, if_pos hc] at h
    simp only [Option.some.injEq] at h; subst h
    split <;> rfl
  · unfold Chip8.decode at h
    have u0 : instr / 4096 ≠ 0 := by omega
    have u1 : instr / 4096 ≠ 1 := by omega
    have u2 : instr / 4096 ≠ 2 := by omega
    have u3 : instr / 4096 ≠ 3 := by omega
    rw [if_neg u0, if_neg u1, if_neg u2, if_neg u3, if_pos hc] at h
    simp only [Option.some.injEq] at h; subst h
    split <;> rfl
  · unfold Chip8.decode at h
    have u0 : instr / 4096 ≠ 0 := by omega
    have u1 : instr / 4096 ≠ 1 := by omega
    have u2 : instr / 4096 ≠ 2 := by omega
    have u3 : instr / 4096 ≠ 3 := by omega
    have u4 : instr / 4096 ≠ 4 := by omega
    rw [if_neg u0, if_neg u1, if_neg u2, if_neg u3, if_neg u4, if_pos hc] at h
    simp only [Option.some.injEq] at h; subst h
    split <;> rfl
  · unfold Chip8.decode at h
    have u0 : instr / 4096 ≠ 0 := by omega
    have u1 : instr / 4096 ≠ 1 := by omega
    have u2 : instr / 4096 ≠ 2 := by omega
    have u3 : instr / 4096 ≠ 3 := by omega
    have u4 : instr / 4096 ≠ 4 := by omega
    have u5 : instr / 4096 ≠ 5 := by omega
    rw [if_neg u0, if_neg u1, if_neg u2, if_neg u3, if_neg u4, if_neg u5, if_pos hc] at h
    simp only [Option.some.injEq] at h; subst h; rfl
  · unfold Chip8.decode at h
    have u0 : instr / 4096 ≠ 0 := by omega
    have u1 : instr / 4096 ≠ 1 := by omega
    have u2 : instr / 4096 ≠ 2 := by omega
    have u3 : instr / 4096 ≠ 3 := by omega
    have u4 : instr / 4096 ≠ 4 := by omega
    have u5 : instr / 4096 ≠ 5 := by omega
    have u6 : instr / 4096 ≠ 6 := by omega
    rw [if_neg u0, if_neg u1, if_neg u2, if_neg u3, if_neg u4, if_neg u5, if_neg u6, if_pos hc] at h
    simp only [Option.some.injEq] at h; subst h; rfl
  · unfold Chip8.decode at h
    have u0 : instr / 4096 ≠ 0 := by omega
    have u1 : instr / 4096 ≠ 1 := by omega
    have u2 : instr / 4096 ≠ 2 := by omega
    have u3 : instr / 4096 ≠ 3 := by omega
    have u4 : instr / 4096 ≠ 4 := by omega
    have u5 : instr / 4096 ≠ 5 := by omega
    have u6 : instr / 4096 ≠ 6 := by omega
    have u7 : instr / 4096 ≠ 7 := by omega
    rw [if_neg u0, if_neg u1, if_neg u2, if_neg u3, if_neg u4, if_neg u5, if_neg u6, if_neg u7, if_pos hc] at h
    rw [decode8_display s s' instr h]
  · unfold Chip8.decode at h
    have u0 : instr / 4096 ≠ 0 := by omega
    have u1 : instr / 4096 ≠ 1 := by omega
    have u2 : instr / 4096 ≠ 2 := by omega
    have u3 : instr / 4096 ≠ 3 := by omega
    have u4 : instr / 4096 ≠ 4 := by omega
    have u5 : instr / 4096 ≠ 5 := by omega
    have u6 : instr / 4096 ≠ 6 := by omega
    have u7 : instr / 4096 ≠ 7 := by omega
    have u8 : instr / 4096 ≠ 8 := by omega
    rw [if_neg u0, if_neg u1, if_neg u2, if_neg u3, if_neg u4, if_neg u5, if_neg u6, if_neg u7, if_neg u8, if_pos hc] at h
    simp only [Option.some.injEq] at h; subst h
    split <;> rfl
  · unfold Chip8.decode at h
    have u0 : instr / 4096 ≠ 0 := by omega
    have u1 : instr / 4096 ≠ 1 := by omega
    have u2 : instr / 4096 ≠ 2 := by omega
    have u3 : instr / 4096 ≠ 3 := by omega
    have u4 : instr / 4096 ≠ 4 := by omega
    have u5 : instr / 4096 ≠ 5 := by omega
    have u6 : instr / 4096 ≠ 6 := by omega
    have u7 : instr / 4096 ≠ 7 := by omega
    have u8 : instr / 4096 ≠ 8 := by omega
    have u9 : instr / 4096 ≠ 9 := by omega
    rw [if_neg u0, if_neg u1, if_neg u2, if_neg u3, if_neg u4, if_neg u5, if_neg u6, if_neg u7, if_neg u8, if_neg u9, if_pos hc] at h
    simp only [Option.some.injEq] at h; subst h; rfl
  · unfold Chip8.decode at h
    have u0 : instr / 4096 ≠ 0 := by omega
    have u1 : instr / 4096 ≠ 1 := by omega
    have u2 : instr / 4096 ≠ 2 := by omega
    have u3 : instr / 4096 ≠ 3 := by omega
    have u4 : instr / 4096 ≠ 4 := by omega
    have u5 : instr / 4096 ≠ 5 := by omega
    have u6 : instr / 4096 ≠ 6 := by omega
    have u7 : instr / 4096 ≠ 7 := by omega
    have u8 : instr / 4096 ≠ 8 := by omega
    have u9 : instr / 4096 ≠ 9 := by omega
    have u10 : instr / 4096 ≠ 10 := by omega
    rw [if_neg u0, if_neg u1, if_neg u2, if_neg u3, if_neg u4, if_neg u5, if_neg u6, if_neg u7, if_neg u8, if_neg u9, if_neg u10, if_pos hc] at h
    simp only [Option.some.injEq] at h; subst h; rfl
  · unfold Chip8.decode at h
    have u0 : instr / 4096 ≠ 0 := by omega
    have u1 : instr / 4096 ≠ 1 := by omega
    have u2 : instr / 4096 ≠ 2 := by omega
    have u3 : instr / 4096 ≠ 3 := by omega
    have u4 : instr / 4096 ≠ 4 := by omega
    have u5 : instr / 4096 ≠ 5 := by omega
    have u6 : instr / 4096 ≠ 6 := by omega
    have u7 : instr / 4096 ≠ 7 := by omega
    have u8 : instr / 4096 ≠ 8 := by omega
    have u9 : instr / 4096 ≠ 9 := by omega
    have u10 : instr / 4096 ≠ 10 := by omega
    have u11 : instr / 4096 ≠ 11 := by omega
    rw [if_neg u0, if_neg u1, if_neg u2, if_neg u3, if_neg u4, if_neg u5, if_neg u6, if_neg u7, if_neg u8, if_neg u9, if_neg u10, if_neg u11, if_pos hc] at h
    simp only [Option.some.injEq] at h; subst h; rfl
  · unfold Chip8.decode at h
    have u0 : instr / 4096 ≠ 0 := by omega
    have u1 : instr / 4096 ≠ 1 := by omega
    have u2 : instr / 4096 ≠ 2 := by omega
    have u3 : instr / 4096 ≠ 3 := by omega
    have u4 : instr / 4096 ≠ 4 := by omega
    have u5 : instr / 4096 ≠ 5 := by omega
    have u6 : instr / 4096 ≠ 6 := by omega
    have u7 : instr / 4096 ≠ 7 := by omega
    have u8 : instr / 4096 ≠ 8 := by omega
    have u9 : instr / 4096 ≠ 9 := by omega
    have u10 : instr / 4096 ≠ 10 := by omega
    have u11 : instr / 4096 ≠ 11 := by omega
    have u12 : instr / 4096 ≠ 12 := by omega
    rw [if_neg u0, if_neg u1, if_neg u2, if_neg u3, if_neg u4, if_neg u5, if_neg u6, if_neg u7, if_neg u8, if_neg u9, if_neg u10, if_neg u11, if_neg u12, if_pos hc] at h
    split at h
    · exact Option.noConfusion h
    · simp only [Option.some.injEq] at h; subst h
      exact draw_hi_mode s.display _ _ _
  · unfold Chip8.decode at h
    have u0 : instr / 4096 ≠ 0 := by omega
    have u1 : instr / 4096 ≠ 1 := by omega
    have u2 : instr / 4096 ≠ 2 := by omega
    have u3 : instr / 4096 ≠ 3 := by omega
    have u4 : instr / 4096 ≠ 4 := by omega
    have u5 : instr / 4096 ≠ 5 := by omega
    have u6 : instr / 4096 ≠ 6 := by omega
    have u7 : instr / 4096 ≠ 7 := by omega
    have u8 : instr / 4096 ≠ 8 := by omega
    have u9 : instr / 4096 ≠ 9 := by omega
    have u10 : instr / 4096 ≠ 10 := by omega
    have u11 : instr / 4096 ≠ 11 := by omega
    have u12 : instr / 4096 ≠ 12 := by omega
    have u13 : instr / 4096 ≠ 13 := by omega
    rw [if_neg u0, if_neg u1, if_neg u2, if_neg u3, if_neg u4, if_neg u5, if_neg u6, if_neg u7, if_neg u8, if_neg u9, if_neg u10, if_neg u11, if_neg u12, if_neg u13, if_pos hc] at h
    rw [decodeE_display s s' instr h]
  · unfold Chip8.decode at h
    have u0 : instr / 4096 ≠ 0 := by omega
    have u1 : instr / 4096 ≠ 1 := by omega
    have u2 : instr / 4096 ≠ 2 := by omega
    have u3 : instr / 4096 ≠ 3 := by omega
    have u4 : instr / 4096 ≠ 4 := by omega
    have u5 : instr / 4096 ≠ 5 := by omega
    have u6 : instr / 4096 ≠ 6 := by omega
    have u7 : instr / 4096 ≠ 7 := by omega
    have u8 : instr / 4096 ≠ 8 := by omega
    have u9 : instr / 4096 ≠ 9 := by omega
    have u10 : instr / 4096 ≠ 10 := by omega
    have u11 : instr / 4096 ≠ 11 := by omega
    have u12 : instr / 4096 ≠ 12 := by omega
    have u13 : instr / 4096 ≠ 13 := by omega
    have u14 : instr / 4096 ≠ 14 := by omega
    rw [if_neg u0, if_neg u1, if_neg u2, if_neg u3, if_neg u4, if_neg u5, if_neg u6, if_neg u7, if_neg u8, if_neg u9, if_neg u10, if_neg u11, if_neg u12, if_neg u13, if_neg u14, if_pos hc] at h
    exact decodeF_hi recur hr s s' instr h
  · unfold Chip8.decode at h
    have u0 : instr / 4096 ≠ 0 := by omega
    have u1 : instr / 4096 ≠ 1 := by omega
    have u2 : instr / 4096 ≠ 2 := by omega
    have u3 : instr / 4096 ≠ 3 := by omega
    have u4 : instr / 4096 ≠ 4 := by omega
    have u5 : instr / 4096 ≠ 5 := by omega
    have u6 : instr / 4096 ≠ 6 := by omega
    have u7 : instr / 4096 ≠ 7 := by omega
    have u8 : instr / 4096 ≠ 8 := by omega
    have u9 : instr / 4096 ≠ 9 := by omega
    have u10 : instr / 4096 ≠ 10 := by omega
    have u11 : instr / 4096 ≠ 11 := by omega
    have u12 : instr / 4096 ≠ 12 := by omega
    have u13 : instr / 4096 ≠ 13 := by omega
    have u14 : instr / 4096 ≠ 14 := by omega
    have u15 : instr / 4096 ≠ 15 := by omega
    rw [if_neg u0, if_neg u1, if_neg u2, if_neg u3, if_neg u4, if_neg u5, if_neg u6, if_neg u7, if_neg u8, if_neg u9, if_neg u10, if_neg u11, if_neg u12, if_neg u13, if_neg u14, if_neg u15] at h
    simp only [Option.some.injEq] at h; subst h; rfl

/-- `fetch` only advances `pc`. -/
theorem fetch_display (s : Chip8) (p : Nat × Chip8) (h : s.fetch = some p) :
    p.2.display = s.display := by
  unfold Chip8.fetch at h
  cases hm0 : s.memory[s.pc]? with
  | none => rw [hm0] at h; exact Option.noConfusion h
  | some b0 =>
    cases hm1 : s.memory[s.pc + 1]? with
    | none => rw [hm0, hm1] at h; exact Option.noConfusion h
    | some b1 =>
      rw [hm0, hm1] at h; simp only [Option.some.injEq] at h; subst h; rfl

/-- A completed `tick` never changes the resolution mode, whatever the
instruction and however much retry fuel was consumed. -/
theorem tick_hi (fuel : Nat) :
    ∀ s s' : Chip8, Chip8.tick fuel s = some s' →
      s'.display.hi_mode = s.display.hi_mode := by
  induction fuel with
  | zero => intro s s' h; exact Option.noConfusion h
  | succ f ih =>
    intro s s' h
    unfold Chip8.tick at h
    split at h
    · exact Option.noConfusion h
    · next p hf =>
      split at h
      · exact Option.noConfusion h
      · next s2 hd =>
        simp only [Option.some.injEq] at h
        subst h
        exact (decode_hi _ ih _ _ _ hd).trans
          (congrArg Display.hi_mode (fetch_display s p hf))

/-- Iterating ticks with arbitrary key events between them never changes
the resolution mode. -/
theorem runSteps_hi (inputs : List (Option Nat)) :
    ∀ (fuel : Nat) (s s' : Chip8), runSteps fuel inputs s = some s' →
      s'.display.hi_mode = s.display.hi_mode := by
  induction inputs with
  | nil =>
    intro fuel s s' h
    simp only [runSteps, Option.some.injEq] at h
    subst h; rfl
  | cons inp rest ih =>
    intro fuel s s' h
    unfold runSteps at h
    cases ht : Chip8.tick fuel s with
    | none => rw [ht] at h; exact Option.noConfusion h
    | some s1 =>
      rw [ht] at h
      exact (ih fuel _ s' h).trans (tick_hi fuel s s1 ht)

/-- In standard mode `Display::draw` writes only `lo_res`. -/
theorem draw_lo_keeps_hi_res (d : Display) (hm : d.hi_mode = false)
    (x y : Nat) (spr : List Nat) : ((d.draw x y spr).1).hi_res = d.hi_res := by
  unfold Display.draw
  rw [hm]
  rfl

/-- In standard mode `Display::clear` zeroes only `lo_res`. -/
theorem clear_lo_keeps_hi_res (d : Display) (hm : d.hi_mode = false) :
    d.clear.hi_res = d.hi_res := by
  unfold Display.clear
  rw [hm]
  rfl

/-- In standard mode `Display::scroll_left` shifts only `lo_res`. -/
theorem scroll_left_lo_keeps_hi_res (d : Display) (hm : d.hi_mode = false) :
    d.scroll_left.hi_res = d.hi_res := by
  unfold Display.scroll_left
  rw [hm]
  rfl

/-- In standard mode `Display::scroll_right` shifts only `lo_res`. -/
theorem scroll_right_lo_keeps_hi_res (d : Display) (hm : d.hi_mode = false) :
    d.scroll_right.hi_res = d.hi_res := by
  unfold Display.scroll_right
  rw [hm]
  rfl

/-- `Display::scroll_down` never writes `lo_res`: in high-resolution mode by
design, and in standard mode because of the copy-paste slip that targets
`hi_res` in both branches. -/
theorem scroll_down_keeps_lo_res (d : Display) (k : Nat) :
    (d.scroll_down k).lo_res = d.lo_res := by
  unfold Display.scroll_down
  cases d.hi_mode <;> rfl

/-- C10, counterexample: the claim says all draw, clear and scroll
operations only ever affect the 64x32 buffer.  On `dC10` (standard mode,
inactive `hi_res` starting `7 :: 0...`) `scroll_down 2` leaves the active
64x32 buffer untouched and mutates the inactive 128x64 buffer, moving the
7 from row 0 to row 2. -/
theorem scroll_down_affects_hi_at_dC10 :
    dC10.hi_mode = false ∧
    (dC10.scroll_down 2).lo_res = dC10.lo_res ∧
    (dC10.scroll_down 2).hi_res ≠ dC10.hi_res := by
  refine ⟨rfl, rfl, by decide⟩

/-- C10 (amended): from construction, under any ROM and any input sequence,
the machine stays in standard 64x32 mode: the extended-mode flag starts
false and no opcode (including the `00FF`/`00FE` stubs) ever sets it.  In
that mode `draw`, `clear`, `scroll_left` and `scroll_right` leave the
128x64 buffer untouched, but `scroll_down` leaves the 64x32 buffer
untouched, acting on the 128x64 buffer instead. -/
theorem standard_mode_scroll_down_misses_lo (rom : List Nat)
    (inputs : List (Option Nat)) (fuel : Nat) (s' : Chip8)
    (h : runSteps fuel inputs (Chip8.new rom) = some s') :
    s'.display.hi_mode = false ∧
    (∀ x y spr, ((s'.display.draw x y spr).1).hi_res = s'.display.hi_res) ∧
    s'.display.clear.hi_res = s'.display.hi_res ∧
    s'.display.scroll_left.hi_res = s'.display.hi_res ∧
    s'.display.scroll_right.hi_res = s'.display.hi_res ∧
    (∀ k, (s'.display.scroll_down k).lo_res = s'.display.lo_res) := by
  have hm : s'.display.hi_mode = false :=
    (runSteps_hi inputs fuel (Chip8.new rom) s' h).trans rfl
  exact ⟨hm, fun x y spr => draw_lo_keeps_hi_res _ hm x y spr,
    clear_lo_keeps_hi_res _ hm, scroll_left_lo_keeps_hi_res _ hm,
    scroll_right_lo_keeps_hi_res _ hm,
    fun k => scroll_down_keeps_lo_res _ k⟩

/-- C10, witness: the empty run from a freshly constructed machine. -/
theorem standard_mode_scroll_down_misses_lo_at_start :
    (Chip8.new []).display.hi_mode = false ∧
    (∀ x y spr, (((Chip8.new []).display.draw x y spr).1).hi_res =
      (Chip8.new []).display.hi_res) ∧
    (Chip8.new []).display.clear.hi_res = (Chip8.new []).display.hi_res ∧
    (Chip8.new []).display.scroll_left.hi_res =
      (Chip8.new []).display.hi_res ∧
    (Chip8.new []).display.scroll_right.hi_res =
      (Chip8.new []).display.hi_res ∧
    (∀ k, ((Chip8.new []).display.scroll_down k).lo_res =
      (Chip8.new []).display.lo_res) :=
  standard_mode_scroll_down_misses_lo [] [] 0 (Chip8.new []) rfl

/-- Unfolding equation of `drawAux` on an empty sprite. -/
theorem drawAux_nil (H : Nat) (p : Nat → Nat) (y r : Nat) (rows : List Nat)
    (res : Bool) : drawAux H p y r [] rows res = (rows, res) := rfl

/-- Unfolding equation of `drawAux` on a sprite row. -/
theorem drawAux_cons (H : Nat) (p : Nat → Nat) (y r b : Nat)
    (rest rows : List Nat) (res : Bool) :
    drawAux H p y r (b :: rest) rows res =
      if H ≤ y + r then (rows, res)
      else drawAux H p y (r + 1) rest
        (rows.set (y + r) (Nat.xor (rows.getD (y + r) 0) (p b)))
        (res || decide (Nat.land (rows.getD (y + r) 0) (p b) ≠ 0)) := rfl

/-- `drawAux` preserves the number of rows. -/
theorem drawAux_length (H : Nat) (p : Nat → Nat) (y : Nat) :
    ∀ (spr : List Nat) (r : Nat) (rows : List Nat) (res : Bool),
      ((drawAux H p y r spr rows res).1).length = rows.length := by
  intro spr
  induction spr with
  | nil => intro r rows res; rfl
  | cons b rest ih =>
    intro r rows res
    rw [drawAux_cons]
    by_cases hy : H ≤ y + r
    · rw [if_pos hy]
    · rw [if_neg hy, ih (r + 1), List.length_set]

/-- `drawAux` starting at sprite row `r` never touches rows below `y + r`. -/
theorem drawAux_get_lt (H : Nat) (p : Nat → Nat) (y : Nat) :
    ∀ (spr : List Nat) (r : Nat) (rows : List Nat) (res : Bool) (j : Nat),
      j < y + r → ((drawAux H p y r spr rows res).1)[j]? = rows[j]? := by
  intro spr
  induction spr with
  | nil => intro r rows res j hj; rfl
  | cons b rest ih =>
    intro r rows res j hj
    rw [drawAux_cons]
    by_cases hy : H ≤ y + r
    · rw [if_pos hy]
    · rw [if_neg hy, ih (r + 1) _ _ j (by omega)]
      exact List.getElem?_set_ne (by omega)

/-- `getD` through a `set` at a different index. -/
theorem getD_set_ne (l : List Nat) (i j a d : Nat) (h : i ≠ j) :
    (l.set i a).getD j d = l.getD j d := by
  simp [List.getD_eq_getElem?_getD, List.getElem?_set_ne h]

/-- Setting a row below `y + r` commutes with `drawAux` starting at sprite
row `r` and does not affect the collision result. -/
theorem drawAux_set_comm (H : Nat) (p : Nat → Nat) (y : Nat) :
    ∀ (spr : List Nat) (r : Nat) (rows : List Nat) (res : Bool) (j a : Nat),
      j < y + r →
      drawAux H p y r spr (rows.set j a) res =
        (((drawAux H p y r spr rows res).1).set j a,
         (drawAux H p y r spr rows res).2) := by
  intro spr
  induction spr with
  | nil => intro r rows res j a hj; rfl
  | cons b rest ih =>
    intro r rows res j a hj
    rw [drawAux_cons, drawAux_cons]
    by_cases hy : H ≤ y + r
    · rw [if_pos hy, if_pos hy]
    · rw [if_neg hy, if_neg hy,
        getD_set_ne rows j (y + r) a 0 (by omega),
        List.set_comm _ _ _ (show j ≠ y + r by omega),
        ih (r + 1) _ _ j a (by omega)]

/-- Overwriting an in-range entry with its own value is the identity. -/
theorem set_getD_self (l : List Nat) (n d : Nat) (h : n < l.length) :
    l.set n (l.getD n d) = l := by
  apply List.ext_getElem?
  intro j
  by_cases hj : n = j
  · subst hj
    rw [List.getElem?_set_self h]
    simp [List.getD_eq_getElem?_getD, List.getElem?_eq_getElem h]
  · exact List.getElem?_set_ne hj

/-- Cancellation of a double XOR, stated on `Nat.xor` directly. -/
theorem natXorCancelRight (a b : Nat) : Nat.xor (Nat.xor a b) b = a :=
  Nat.xor_cancel_right b a

/-- XOR-drawing the same sprite twice restores the row buffer. -/
theorem drawAux_restore (H : Nat) (p : Nat → Nat) (y : Nat) :
    ∀ (spr : List Nat) (r : Nat) (rows : List Nat) (res res' : Bool),
      H ≤ rows.length →
      (drawAux H p y r spr (drawAux H p y r spr rows res).1 res').1 = rows := by
  intro spr
  induction spr with
  | nil => intro r rows res res' hH; rfl
  | cons b rest ih =>
    intro r rows res res' hH
    by_cases hy : H ≤ y + r
    · rw [drawAux_cons, if_pos hy, drawAux_cons, if_pos hy]
    · have hin : y + r < rows.length := by omega
      rw [drawAux_cons, if_neg hy, drawAux_cons, if_neg hy]
      have hgd : ((drawAux H p y (r + 1) rest
          (rows.set (y + r) (Nat.xor (rows.getD (y + r) 0) (p b)))
          (res || decide (Nat.land (rows.getD (y + r) 0) (p b) ≠ 0))).1).getD
            (y + r) 0 = Nat.xor (rows.getD (y + r) 0) (p b) := by
        rw [List.getD_eq_getElem?_getD,
          drawAux_get_lt H p y rest (r + 1) _ _ (y + r) (by omega),
          List.getElem?_set_self (by simpa using hin)]
        rfl
      rw [hgd, natXorCancelRight]
      have hsc := drawAux_set_comm H p y rest (r + 1)
        (rows.set (y + r) (Nat.xor (rows.getD (y + r) 0) (p b)))
        (res || decide (Nat.land (rows.getD (y + r) 0) (p b) ≠ 0))
        (y + r) (rows.getD (y + r) 0) (by omega)
      rw [List.set_set, set_getD_self rows (y + r) 0 hin] at hsc
      have heq : ((drawAux H p y (r + 1) rest
          (rows.set (y + r) (Nat.xor (rows.getD (y + r) 0) (p b)))
          (res || decide (Nat.land (rows.getD (y + r) 0) (p b) ≠ 0))).1).set
            (y + r) (rows.getD (y + r) 0) =
          (drawAux H p y (r + 1) rest rows
            (res || decide (Nat.land (rows.getD (y + r) 0) (p b) ≠ 0))).1 := by
        rw [hsc]
      rw [heq]
      exact ih (r + 1) rows _ _ hH

/-- Once the collision flag is set it stays set. -/
theorem drawAux_res_true (H : Nat) (p : Nat → Nat) (y : Nat) :
    ∀ (spr : List Nat) (r : Nat) (rows : List Nat),
      (drawAux H p y r spr rows true).2 = true := by
  intro spr
  induction spr with
  | nil => intro r rows; rfl
  | cons b rest ih =>
    intro r rows
    rw [drawAux_cons]
    by_cases hy : H ≤ y + r
    · rw [if_pos hy]
    · rw [if_neg hy, Bool.true_or]
      exact ih (r + 1) _

/-- If some drawn sprite row overlaps a set bit of its destination row, the
draw reports a collision. -/
theorem drawAux_collision (H : Nat) (p : Nat → Nat) (y : Nat) :
    ∀ (spr : List Nat) (r : Nat) (rows : List Nat) (res : Bool) (k : Nat),
      k < spr.length → y + r + k < H →
      Nat.land (rows.getD (y + r + k) 0) (p (spr.getD k 0)) ≠ 0 →
      (drawAux H p y r spr rows res).2 = true := by
  intro spr
  induction spr with
  | nil => intro r rows res k hk; exact absurd hk (by simp)
  | cons b rest ih =>
    intro r rows res k hk hH hland
    rw [drawAux_cons, if_neg (by omega)]
    cases k with
    | zero =>
      have hd : decide (Nat.land (rows.getD (y + r) 0) (p b) ≠ 0) = true := by
        simpa using hland
      rw [hd, Bool.or_true]
      exact drawAux_res_true H p y rest (r + 1) _
    | succ q =>
      apply ih (r + 1) _ _ q (by simpa using hk) (by omega)
      have hidx : y + (r + 1) + q = y + r + (q + 1) := by omega
      rw [getD_set_ne _ _ _ _ _ (by omega), hidx]
      simpa using hland

/-- C5: drawing the identical sprite twice at the same coordinates restores
both pixel buffers to their pre-draw contents, and the second draw reports a
collision whenever one of its drawn sprite rows overlaps a pixel left set by
the first draw.  `x < 64` reflects the domain of the source's `u64` shift;
the length hypotheses are the `[u64; 32]` / `[u128; 64]` array shapes. -/
theorem draw_twice_restores_and_collides (d : Display) (x y : Nat)
    (spr : List Nat) (hx : x < 64)
    (hlo : d.lo_res.length = 32) (hhi : d.hi_res.length = 64) :
    (((d.draw x y spr).1.draw x y spr).1.lo_res = d.lo_res ∧
     ((d.draw x y spr).1.draw x y spr).1.hi_res = d.hi_res) ∧
    (Display.hitsAt (d.draw x y spr).1 x y spr →
      ((d.draw x y spr).1.draw x y spr).2 = true) := by
  obtain ⟨ch, hm, lo, hi⟩ := d
  simp only at hlo hhi
  cases hm with
  | false =>
    have hd1 : Display.draw ⟨ch, false, lo, hi⟩ x y spr =
        (⟨true, false,
          (drawAux 32 (spritePattern false x) y 0 spr lo false).1, hi⟩,
         (drawAux 32 (spritePattern false x) y 0 spr lo false).2) := rfl
    have hd2 : Display.draw
        ⟨true, false,
          (drawAux 32 (spritePattern false x) y 0 spr lo false).1, hi⟩
        x y spr =
        (⟨true, false,
          (drawAux 32 (spritePattern false x) y 0 spr
            (drawAux 32 (spritePattern false x) y 0 spr lo false).1 false).1,
          hi⟩,
         (drawAux 32 (spritePattern false x) y 0 spr
            (drawAux 32 (spritePattern false x) y 0 spr lo false).1 false).2) :=
      rfl
    rw [hd1, hd2]
    refine ⟨⟨drawAux_restore 32 _ y spr 0 lo false false (by omega), rfl⟩, ?_⟩
    intro hhit
    unfold Display.hitsAt at hhit
    obtain ⟨k, hk1, hk2, hk3⟩ := hhit
    have hk2' : y + k < 32 := by simpa using hk2
    have hk3' : Nat.land
        (((drawAux 32 (spritePattern false x) y 0 spr lo false).1).getD
          (y + k) 0)
        (spritePattern false x (spr.getD k 0)) ≠ 0 := by simpa using hk3
    apply drawAux_collision 32 (spritePattern false x) y spr 0 _ false k hk1
      (by omega)
    have hz : y + 0 + k = y + k := by omega
    rw [hz]
    exact hk3'
  | true =>
    have hd1 : Display.draw ⟨ch, true, lo, hi⟩ x y spr =
        (⟨true, true, lo,
          (drawAux 64 (spritePattern true x) y 0 spr hi false).1⟩,
         (drawAux 64 (spritePattern true x) y 0 spr hi false).2) := rfl
    have hd2 : Display.draw
        ⟨true, true, lo,
          (drawAux 64 (spritePattern true x) y 0 spr hi false).1⟩
        x y spr =
        (⟨true, true, lo,
          (drawAux 64 (spritePattern true x) y 0 spr
            (drawAux 64 (spritePattern true x) y 0 spr hi false).1 false).1⟩,
         (drawAux 64 (spritePattern true x) y 0 spr
            (drawAux 64 (spritePattern true x) y 0 spr hi false).1 false).2) :=
      rfl
    rw [hd1, hd2]
    refine ⟨⟨rfl, drawAux_restore 64 _ y spr 0 hi false false (by omega)⟩, ?_⟩
    intro hhit
    unfold Display.hitsAt at hhit
    obtain ⟨k, hk1, hk2, hk3⟩ := hhit
    have hk2' : y + k < 64 := by simpa using hk2
    have hk3' : Nat.land
        (((drawAux 64 (spritePattern true x) y 0 spr hi false).1).getD
          (y + k) 0)
        (spritePattern true x (spr.getD k 0)) ≠ 0 := by simpa using hk3
    apply drawAux_collision 64 (spritePattern true x) y spr 0 _ false k hk1
      (by omega)
    have hz : y + 0 + k = y + k := by omega
    rw [hz]
    exact hk3'

/-- C5, witness: one-byte sprite `0x80` drawn twice at the origin of the
freshly initialized display. -/
theorem draw_twice_restores_and_collides_at_init :
    (((Display.init.draw 0 0 [0x80]).1.draw 0 0 [0x80]).1.lo_res =
        Display.init.lo_res ∧
     ((Display.init.draw 0 0 [0x80]).1.draw 0 0 [0x80]).1.hi_res =
        Display.init.hi_res) ∧
    (Display.hitsAt (Display.init.draw 0 0 [0x80]).1 0 0 [0x80] →
      ((Display.init.draw 0 0 [0x80]).1.draw 0 0 [0x80]).2 = true) :=
  draw_twice_restores_and_collides Display.init 0 0 [0x80] (by decide) rfl rfl
